import Mathlib

/-!
Verification development for `eat.py`: a tool that walks the Python AST of a
module and gathers per-function statistics (counts of conditionals, loops,
comprehensions, assignments, returns and calls, plus sets of called
functions, called methods and resolved attributes).

The embedding mirrors the `ast` module's uniform node model: every Python AST
node is a value of the single inductive type `PN` (as in Python, where every
node is an `ast.AST` and code discriminates with `isinstance`).  The fragment
covers every node kind that `collect_stats` classifies, plus representative
unclassified kinds (names, constants, binary operations, comparison chains,
expression statements, argument lists, class definitions, `pass`, modules).
Fields that `eat.py` never touches and that contain no classified subtrees of
their own shape (operator tags, contexts, keyword arguments of calls, class
bases) are elided.
-/

set_option maxHeartbeats 1000000
set_option linter.unnecessarySeqFocus false

/-- A Python AST node (`ast.AST`).  Constructor names follow the `ast` class
names used by `eat.py`; `compClause` is `ast.comprehension` (one `for ... in
... if ...` clause of a comprehension), `exprStmt` is `ast.Expr` (an
expression used as a statement), `ret` is `ast.Return`. -/
inductive PN where
  | name (id : String)
  | const
  | attribute (value : PN) (attr : String)
  | call (func : PN) (args : List PN)
  | ifExp (test : PN) (body : PN) (orelse : PN)
  | binOp (left : PN) (right : PN)
  | compare (left : PN) (comparators : List PN)
  | listComp (elt : PN) (generators : List PN)
  | setComp (elt : PN) (generators : List PN)
  | dictComp (key : PN) (value : PN) (generators : List PN)
  | compClause (target : PN) (iter : PN) (ifs : List PN)
  | exprStmt (value : PN)
  | ret (value : Option PN)
  | assign (targets : List PN) (value : PN)
  | augAssign (target : PN) (value : PN)
  | annAssign (target : PN) (ann : PN) (value : Option PN)
  | ifStmt (test : PN) (body : List PN) (orelse : List PN)
  | forStmt (target : PN) (iter : PN) (body : List PN) (orelse : List PN)
  | asyncFor (target : PN) (iter : PN) (body : List PN) (orelse : List PN)
  | whileStmt (test : PN) (body : List PN) (orelse : List PN)
  | functionDef (fname : String) (args : PN) (body : List PN)
      (decorators : List PN) (retAnn : Option PN)
  | asyncFunctionDef (fname : String) (args : PN) (body : List PN)
      (decorators : List PN) (retAnn : Option PN)
  | classDef (cname : String) (body : List PN)
  | arguments (args : List PN) (defaults : List PN)
  | arg (aname : String) (ann : Option PN)
  | pass
  | module (body : List PN)

/-- `node.name`: the declared name of a definition node.  In Python this
attribute access would raise for nodes without a `name` field; `get_stats`
only ever reaches it on function-definition nodes, so the `""` default is
unreachable in the modelled call graph. -/
def PN.nodeName : PN → String
  | .functionDef n _ _ _ _ => n
  | .asyncFunctionDef n _ _ _ _ => n
  | .classDef n _ => n
  | _ => ""

mutual

/-- `ast.walk(node)`: the start node together with every descendant node.
Python's `ast.walk` enumerates breadth-first; `collect_stats` folds updates
that commute (counter increments and set insertions), so the aggregate only
depends on the multiset of visited nodes and a depth-first enumeration is an
equivalent model. -/
def walk : PN → List PN
  | .name i => [.name i]
  | .const => [.const]
  | .attribute v a => .attribute v a :: walk v
  | .call f as => .call f as :: (walk f ++ walkList as)
  | .ifExp t b o => .ifExp t b o :: (walk t ++ walk b ++ walk o)
  | .binOp l r => .binOp l r :: (walk l ++ walk r)
  | .compare l cs => .compare l cs :: (walk l ++ walkList cs)
  | .listComp e gs => .listComp e gs :: (walk e ++ walkList gs)
  | .setComp e gs => .setComp e gs :: (walk e ++ walkList gs)
  | .dictComp k v gs => .dictComp k v gs :: (walk k ++ walk v ++ walkList gs)
  | .compClause t i fs => .compClause t i fs :: (walk t ++ walk i ++ walkList fs)
  | .exprStmt v => .exprStmt v :: walk v
  | .ret v => .ret v :: walkOpt v
  | .assign ts v => .assign ts v :: (walkList ts ++ walk v)
  | .augAssign t v => .augAssign t v :: (walk t ++ walk v)
  | .annAssign t an v => .annAssign t an v :: (walk t ++ walk an ++ walkOpt v)
  | .ifStmt t b o => .ifStmt t b o :: (walk t ++ walkList b ++ walkList o)
  | .forStmt t i b o => .forStmt t i b o :: (walk t ++ walk i ++ walkList b ++ walkList o)
  | .asyncFor t i b o => .asyncFor t i b o :: (walk t ++ walk i ++ walkList b ++ walkList o)
  | .whileStmt t b o => .whileStmt t b o :: (walk t ++ walkList b ++ walkList o)
  | .functionDef n a b d r =>
      .functionDef n a b d r :: (walk a ++ walkList b ++ walkList d ++ walkOpt r)
  | .asyncFunctionDef n a b d r =>
      .asyncFunctionDef n a b d r :: (walk a ++ walkList b ++ walkList d ++ walkOpt r)
  | .classDef n b => .classDef n b :: walkList b
  | .arguments as ds => .arguments as ds :: (walkList as ++ walkList ds)
  | .arg n an => .arg n an :: walkOpt an
  | .pass => [.pass]
  | .module b => .module b :: walkList b

/-- Walk every node of a list of sibling subtrees. -/
def walkList : List PN → List PN
  | [] => []
  | x :: xs => walk x ++ walkList xs

/-- Walk an optional subtree (absent fields contribute nothing). -/
def walkOpt : Option PN → List PN
  | none => []
  | some x => walk x

end

/-- The Statistics Record built by `collect_stats`: the scalar counters of
`COLUMNS` plus the three name sets.  Python's `set` is modelled by
`Finset String`. -/
structure Stats where
  name : String
  conditionals : Nat
  loops : Nat
  comprehensions : Nat
  assignments : Nat
  returns : Nat
  calls : Nat
  recursive_calls : Nat
  called_functions : Finset String
  called_methods : Finset String
  resolved_attributes : Finset String
deriving DecidableEq

/-- The empty record created at the top of `collect_stats`: every column of
`COLUMNS` zeroed, `name` set to the function's declared name, the three sets
empty. -/
def emptyStats (n : String) : Stats :=
  ⟨n, 0, 0, 0, 0, 0, 0, 0, ∅, ∅, ∅⟩

/-- One iteration of the `for child in ast.walk(node)` loop body of
`collect_stats`: classify `child` by its node kind (the `isinstance` chain)
and update the record.  `fname` is `node.name`, the enclosing function's
declared name. -/
def tally (fname : String) (r : Stats) (child : PN) : Stats :=
  match child with
  | .call f _ =>
      let r := { r with calls := r.calls + 1 }
      match f with
      | .name id =>
          let r :=
            if id = fname then
              { r with recursive_calls := r.recursive_calls + 1 }
            else r
          { r with called_functions := insert id r.called_functions }
      | .attribute _ a => { r with called_methods := insert a r.called_methods }
      | _ => r
  | .attribute _ a =>
      { r with resolved_attributes := insert a r.resolved_attributes }
  | .ret _ => { r with returns := r.returns + 1 }
  | .assign _ _ => { r with assignments := r.assignments + 1 }
  | .augAssign _ _ => { r with assignments := r.assignments + 1 }
  | .annAssign _ _ _ => { r with assignments := r.assignments + 1 }
  | .listComp _ _ => { r with comprehensions := r.comprehensions + 1 }
  | .setComp _ _ => { r with comprehensions := r.comprehensions + 1 }
  | .dictComp _ _ _ => { r with comprehensions := r.comprehensions + 1 }
  | .forStmt _ _ _ _ => { r with loops := r.loops + 1 }
  | .asyncFor _ _ _ _ => { r with loops := r.loops + 1 }
  | .whileStmt _ _ _ => { r with loops := r.loops + 1 }
  | .ifStmt _ _ _ => { r with conditionals := r.conditionals + 1 }
  | .ifExp _ _ _ => { r with conditionals := r.conditionals + 1 }
  | _ => r

/-- `collect_stats(node)`: gather the statistics of one function-definition
node by walking its whole subtree once. -/
def collect_stats (node : PN) : Stats :=
  (walk node).foldl (tally node.nodeName) (emptyStats node.nodeName)

/-- The shape of a node's `body` attribute, as `hasattr(node, "body")` and
`node.body` see it.  `absent`: the node has no `body` field at all.
`stmts`: the field holds a statement sequence.  `single`: the field holds one
expression node, not a sequence — in this fragment that is `ast.IfExp`, whose
fields are `test`, `body`, `orelse`. -/
inductive BodyAttr where
  | absent
  | stmts (body : List PN)
  | single (body : PN)

/-- `getattr(node, "body", <absent>)`.  In Python's `ast`, `Module`, function
and class definitions, `If`, `For`/`AsyncFor` and `While` carry a
statement-sequence `body`; `IfExp` carries a single-expression `body`; the
remaining node kinds of this fragment have no `body` field. -/
def bodyAttr : PN → BodyAttr
  | .module b => .stmts b
  | .functionDef _ _ b _ _ => .stmts b
  | .asyncFunctionDef _ _ b _ _ => .stmts b
  | .classDef _ b => .stmts b
  | .ifStmt _ b _ => .stmts b
  | .forStmt _ _ b _ => .stmts b
  | .asyncFor _ _ b _ => .stmts b
  | .whileStmt _ b _ => .stmts b
  | .ifExp _ b _ => .single b
  | _ => .absent

/-- `isinstance(child, (ast.FunctionDef, ast.AsyncFunctionDef))`. -/
def isFuncDef : PN → Bool
  | .functionDef _ _ _ _ _ => true
  | .asyncFunctionDef _ _ _ _ _ => true
  | _ => false

/-- `get_stats(node)` raises a `TypeError` exactly when the node's `body`
attribute exists but is a single expression node rather than a statement
sequence: the `hasattr(node, "body")` guard passes and `for child in
node.body` then iterates a non-iterable AST node. -/
def get_stats_raises (node : PN) : Bool :=
  match bodyAttr node with
  | .single _ => true
  | _ => false

/-- `get_stats(node)`: one record per function definition found directly in
`node.body`; the empty list when the node has no `body` attribute.  On the
`.single` branch the real code raises a `TypeError` (see
`get_stats_raises`); the total Lean function returns `[]` there only to stay
`List`-valued, and no theorem below relies on that branch's value. -/
def get_stats (node : PN) : List Stats :=
  match bodyAttr node with
  | .absent => []
  | .stmts body =>
      body.filterMap fun child =>
        if isFuncDef child then some (collect_stats child) else none
  | .single _ => []

/-! ### Spec-side node classifiers

Decidable predicates naming the node shapes the spec's classification rules
speak about.  They are used to state the theorems; `tally` above is the
code's classifier. -/

/-- The node is a call expression (`ast.Call`). -/
def isCallNode : PN → Bool
  | .call _ _ => true
  | _ => false

/-- The node is a call whose callee is a bare-name reference equal to
`fname` — the spec's notion of a direct self-recursive call. -/
def isSelfCallNode (fname : String) : PN → Bool
  | .call (.name i) _ => i == fname
  | _ => false

/-- The node is an explicit return statement. -/
def isReturnNode : PN → Bool
  | .ret _ => true
  | _ => false

/-- The node is an assignment-family statement (simple, augmented or
annotated). -/
def isAssignNode : PN → Bool
  | .assign _ _ => true
  | .augAssign _ _ => true
  | .annAssign _ _ _ => true
  | _ => false

/-- The node is a list/set/mapping comprehension expression. -/
def isComprehensionNode : PN → Bool
  | .listComp _ _ => true
  | .setComp _ _ => true
  | .dictComp _ _ _ => true
  | _ => false

/-- The node is a loop statement (`for`, `async for` or `while`). -/
def isLoopNode : PN → Bool
  | .forStmt _ _ _ _ => true
  | .asyncFor _ _ _ _ => true
  | .whileStmt _ _ _ => true
  | _ => false

/-- The node is a branching construct: an `if` statement (each `elif` is
itself a nested `ifStmt` node) or an inline conditional expression. -/
def isConditionalNode : PN → Bool
  | .ifStmt _ _ _ => true
  | .ifExp _ _ _ => true
  | _ => false

/-- The bare-name callee of a call node, when it has one. -/
def bareCallee : PN → Option String
  | .call (.name i) _ => some i
  | _ => none

/-- The attribute name of a call node whose callee is an attribute access
(`receiver.attr(...)`), when it has one. -/
def attrCallee : PN → Option String
  | .call (.attribute _ a) _ => some a
  | _ => none

/-- The attribute name of an attribute-access node, when the node is one. -/
def attrNameOf : PN → Option String
  | .attribute _ a => some a
  | _ => none

/-! ### How one loop iteration moves each field -/

theorem tally_name (f : String) (r : Stats) (c : PN) :
    (tally f r c).name = r.name := by
  cases c <;> simp [tally]
  rename_i func args
  cases func <;> simp [tally] <;> split <;> rfl

theorem tally_calls (f : String) (r : Stats) (c : PN) :
    (tally f r c).calls = r.calls + (if isCallNode c then 1 else 0) := by
  cases c <;> simp [tally, isCallNode]
  rename_i func args
  cases func <;> simp [tally] <;> split <;> rfl

theorem tally_recursive (f : String) (r : Stats) (c : PN) :
    (tally f r c).recursive_calls =
      r.recursive_calls + (if isSelfCallNode f c then 1 else 0) := by
  cases c <;> simp [tally, isSelfCallNode]
  rename_i func args
  cases func <;> simp [tally, isSelfCallNode] <;> split <;> simp_all

theorem tally_returns (f : String) (r : Stats) (c : PN) :
    (tally f r c).returns = r.returns + (if isReturnNode c then 1 else 0) := by
  cases c <;> simp [tally, isReturnNode]
  rename_i func args
  cases func <;> simp [tally] <;> split <;> rfl

theorem tally_assignments (f : String) (r : Stats) (c : PN) :
    (tally f r c).assignments =
      r.assignments + (if isAssignNode c then 1 else 0) := by
  cases c <;> simp [tally, isAssignNode]
  rename_i func args
  cases func <;> simp [tally] <;> split <;> rfl

theorem tally_comprehensions (f : String) (r : Stats) (c : PN) :
    (tally f r c).comprehensions =
      r.comprehensions + (if isComprehensionNode c then 1 else 0) := by
  cases c <;> simp [tally, isComprehensionNode]
  rename_i func args
  cases func <;> simp [tally] <;> split <;> rfl

theorem tally_loops (f : String) (r : Stats) (c : PN) :
    (tally f r c).loops = r.loops + (if isLoopNode c then 1 else 0) := by
  cases c <;> simp [tally, isLoopNode]
  rename_i func args
  cases func <;> simp [tally] <;> split <;> rfl

theorem tally_conditionals (f : String) (r : Stats) (c : PN) :
    (tally f r c).conditionals =
      r.conditionals + (if isConditionalNode c then 1 else 0) := by
  cases c <;> simp [tally, isConditionalNode]
  rename_i func args
  cases func <;> simp [tally] <;> split <;> rfl

theorem tally_called_functions (f : String) (r : Stats) (c : PN) :
    (tally f r c).called_functions =
      (match bareCallee c with
       | some i => insert i r.called_functions
       | none => r.called_functions) := by
  cases c <;> simp [tally, bareCallee]
  rename_i func args
  cases func <;> simp [tally, bareCallee] <;> split <;> rfl

theorem tally_called_methods (f : String) (r : Stats) (c : PN) :
    (tally f r c).called_methods =
      (match attrCallee c with
       | some a => insert a r.called_methods
       | none => r.called_methods) := by
  cases c <;> simp [tally, attrCallee]
  rename_i func args
  cases func <;> simp [tally, attrCallee] <;> split <;> rfl

theorem tally_resolved_attributes (f : String) (r : Stats) (c : PN) :
    (tally f r c).resolved_attributes =
      (match attrNameOf c with
       | some a => insert a r.resolved_attributes
       | none => r.resolved_attributes) := by
  cases c <;> simp [tally, attrNameOf]
  rename_i func args
  cases func <;> simp [tally, attrNameOf] <;> split <;> rfl

/-! ### The whole loop: `collect_stats` field characterizations

Folding `tally` over any node list starts from the record's current value
and adds one per matching node (for the counters) or inserts every harvested
name (for the sets). -/

theorem foldl_tally_name (f : String) :
    ∀ (l : List PN) (r : Stats), (l.foldl (tally f) r).name = r.name := by
  intro l
  induction l with
  | nil => intro r; rfl
  | cons c l ih => intro r; simpa [List.foldl_cons, ih] using tally_name f r c

theorem foldl_tally_calls (f : String) :
    ∀ (l : List PN) (r : Stats),
      (l.foldl (tally f) r).calls = r.calls + l.countP isCallNode := by
  intro l
  induction l with
  | nil => intro r; simp
  | cons c l ih =>
      intro r
      simp only [List.foldl_cons, ih, tally_calls, List.countP_cons]
      split <;> omega

theorem foldl_tally_recursive (f : String) :
    ∀ (l : List PN) (r : Stats),
      (l.foldl (tally f) r).recursive_calls =
        r.recursive_calls + l.countP (isSelfCallNode f) := by
  intro l
  induction l with
  | nil => intro r; simp
  | cons c l ih =>
      intro r
      simp only [List.foldl_cons, ih, tally_recursive, List.countP_cons]
      split <;> omega

theorem foldl_tally_returns (f : String) :
    ∀ (l : List PN) (r : Stats),
      (l.foldl (tally f) r).returns = r.returns + l.countP isReturnNode := by
  intro l
  induction l with
  | nil => intro r; simp
  | cons c l ih =>
      intro r
      simp only [List.foldl_cons, ih, tally_returns, List.countP_cons]
      split <;> omega

theorem foldl_tally_assignments (f : String) :
    ∀ (l : List PN) (r : Stats),
      (l.foldl (tally f) r).assignments =
        r.assignments + l.countP isAssignNode := by
  intro l
  induction l with
  | nil => intro r; simp
  | cons c l ih =>
      intro r
      simp only [List.foldl_cons, ih, tally_assignments, List.countP_cons]
      split <;> omega

theorem foldl_tally_comprehensions (f : String) :
    ∀ (l : List PN) (r : Stats),
      (l.foldl (tally f) r).comprehensions =
        r.comprehensions + l.countP isComprehensionNode := by
  intro l
  induction l with
  | nil => intro r; simp
  | cons c l ih =>
      intro r
      simp only [List.foldl_cons, ih, tally_comprehensions, List.countP_cons]
      split <;> omega

theorem foldl_tally_loops (f : String) :
    ∀ (l : List PN) (r : Stats),
      (l.foldl (tally f) r).loops = r.loops + l.countP isLoopNode := by
  intro l
  induction l with
  | nil => intro r; simp
  | cons c l ih =>
      intro r
      simp only [List.foldl_cons, ih, tally_loops, List.countP_cons]
      split <;> omega

theorem foldl_tally_conditionals (f : String) :
    ∀ (l : List PN) (r : Stats),
      (l.foldl (tally f) r).conditionals =
        r.conditionals + l.countP isConditionalNode := by
  intro l
  induction l with
  | nil => intro r; simp
  | cons c l ih =>
      intro r
      simp only [List.foldl_cons, ih, tally_conditionals, List.countP_cons]
      split <;> omega

theorem foldl_tally_called_functions (f : String) :
    ∀ (l : List PN) (r : Stats),
      (l.foldl (tally f) r).called_functions =
        r.called_functions ∪ (l.filterMap bareCallee).toFinset := by
  intro l
  induction l with
  | nil => intro r; simp
  | cons c l ih =>
      intro r
      simp only [List.foldl_cons, ih]
      rw [tally_called_functions]
      cases h : bareCallee c <;>
        simp [List.filterMap_cons, h, Finset.union_insert, Finset.insert_union]

theorem foldl_tally_called_methods (f : String) :
    ∀ (l : List PN) (r : Stats),
      (l.foldl (tally f) r).called_methods =
        r.called_methods ∪ (l.filterMap attrCallee).toFinset := by
  intro l
  induction l with
  | nil => intro r; simp
  | cons c l ih =>
      intro r
      simp only [List.foldl_cons, ih]
      rw [tally_called_methods]
      cases h : attrCallee c <;>
        simp [List.filterMap_cons, h, Finset.union_insert, Finset.insert_union]

theorem foldl_tally_resolved_attributes (f : String) :
    ∀ (l : List PN) (r : Stats),
      (l.foldl (tally f) r).resolved_attributes =
        r.resolved_attributes ∪ (l.filterMap attrNameOf).toFinset := by
  intro l
  induction l with
  | nil => intro r; simp
  | cons c l ih =>
      intro r
      simp only [List.foldl_cons, ih]
      rw [tally_resolved_attributes]
      cases h : attrNameOf c <;>
        simp [List.filterMap_cons, h, Finset.union_insert, Finset.insert_union]

theorem collect_stats_name (node : PN) :
    (collect_stats node).name = node.nodeName := by
  simp [collect_stats, foldl_tally_name, emptyStats]

theorem collect_stats_calls (node : PN) :
    (collect_stats node).calls = (walk node).countP isCallNode := by
  simp [collect_stats, foldl_tally_calls, emptyStats]

theorem collect_stats_recursive (node : PN) :
    (collect_stats node).recursive_calls =
      (walk node).countP (isSelfCallNode node.nodeName) := by
  simp [collect_stats, foldl_tally_recursive, emptyStats]

theorem collect_stats_returns (node : PN) :
    (collect_stats node).returns = (walk node).countP isReturnNode := by
  simp [collect_stats, foldl_tally_returns, emptyStats]

theorem collect_stats_assignments (node : PN) :
    (collect_stats node).assignments = (walk node).countP isAssignNode := by
  simp [collect_stats, foldl_tally_assignments, emptyStats]

theorem collect_stats_comprehensions (node : PN) :
    (collect_stats node).comprehensions =
      (walk node).countP isComprehensionNode := by
  simp [collect_stats, foldl_tally_comprehensions, emptyStats]

theorem collect_stats_loops (node : PN) :
    (collect_stats node).loops = (walk node).countP isLoopNode := by
  simp [collect_stats, foldl_tally_loops, emptyStats]

theorem collect_stats_conditionals (node : PN) :
    (collect_stats node).conditionals =
      (walk node).countP isConditionalNode := by
  simp [collect_stats, foldl_tally_conditionals, emptyStats]

theorem collect_stats_called_functions (node : PN) :
    (collect_stats node).called_functions =
      ((walk node).filterMap bareCallee).toFinset := by
  simp [collect_stats, foldl_tally_called_functions, emptyStats]

theorem collect_stats_called_methods (node : PN) :
    (collect_stats node).called_methods =
      ((walk node).filterMap attrCallee).toFinset := by
  simp [collect_stats, foldl_tally_called_methods, emptyStats]

theorem collect_stats_resolved_attributes (node : PN) :
    (collect_stats node).resolved_attributes =
      ((walk node).filterMap attrNameOf).toFinset := by
  simp [collect_stats, foldl_tally_resolved_attributes, emptyStats]

mutual

/-- `walk` is closed under taking sub-walks: every node listed in `walk n`
has its own entire walk listed in `walk n` as well (the walk of a subtree is
part of the walk of the tree). -/
theorem walk_closed : ∀ (n : PN), ∀ m ∈ walk n, walk m ⊆ walk n
  | .name i => by
      intro m hm
      rw [walk] at hm
      simp only [List.mem_singleton] at hm
      subst hm
      exact List.Subset.refl _
  | .const => by
      intro m hm
      rw [walk] at hm
      simp only [List.mem_singleton] at hm
      subst hm
      exact List.Subset.refl _
  | .attribute v a => by
      intro m hm x hx
      rw [walk] at hm ⊢
      simp only [List.mem_cons, List.mem_append, or_assoc] at hm ⊢
      rcases hm with rfl | hm
      · rw [walk] at hx
        simp only [List.mem_cons, List.mem_append, or_assoc] at hx
        exact hx
      · have h := walk_closed v m hm hx
        tauto
  | .call f as => by
      intro m hm x hx
      rw [walk] at hm ⊢
      simp only [List.mem_cons, List.mem_append, or_assoc] at hm ⊢
      rcases hm with rfl | hm | hm
      · rw [walk] at hx
        simp only [List.mem_cons, List.mem_append, or_assoc] at hx
        exact hx
      · have h := walk_closed f m hm hx
        tauto
      · have h := walkList_closed as m hm hx
        tauto
  | .ifExp t b o => by
      intro m hm x hx
      rw [walk] at hm ⊢
      simp only [List.mem_cons, List.mem_append, or_assoc] at hm ⊢
      rcases hm with rfl | hm | hm | hm
      · rw [walk] at hx
        simp only [List.mem_cons, List.mem_append, or_assoc] at hx
        exact hx
      · have h := walk_closed t m hm hx
        tauto
      · have h := walk_closed b m hm hx
        tauto
      · have h := walk_closed o m hm hx
        tauto
  | .binOp l r => by
      intro m hm x hx
      rw [walk] at hm ⊢
      simp only [List.mem_cons, List.mem_append, or_assoc] at hm ⊢
      rcases hm with rfl | hm | hm
      · rw [walk] at hx
        simp only [List.mem_cons, List.mem_append, or_assoc] at hx
        exact hx
      · have h := walk_closed l m hm hx
        tauto
      · have h := walk_closed r m hm hx
        tauto
  | .compare l cs => by
      intro m hm x hx
      rw [walk] at hm ⊢
      simp only [List.mem_cons, List.mem_append, or_assoc] at hm ⊢
      rcases hm with rfl | hm | hm
      · rw [walk] at hx
        simp only [List.mem_cons, List.mem_append, or_assoc] at hx
        exact hx
      · have h := walk_closed l m hm hx
        tauto
      · have h := walkList_closed cs m hm hx
        tauto
  | .listComp e gs => by
      intro m hm x hx
      rw [walk] at hm ⊢
      simp only [List.mem_cons, List.mem_append, or_assoc] at hm ⊢
      rcases hm with rfl | hm | hm
      · rw [walk] at hx
        simp only [List.mem_cons, List.mem_append, or_assoc] at hx
        exact hx
      · have h := walk_closed e m hm hx
        tauto
      · have h := walkList_closed gs m hm hx
        tauto
  | .setComp e gs => by
      intro m hm x hx
      rw [walk] at hm ⊢
      simp only [List.mem_cons, List.mem_append, or_assoc] at hm ⊢
      rcases hm with rfl | hm | hm
      · rw [walk] at hx
        simp only [List.mem_cons, List.mem_append, or_assoc] at hx
        exact hx
      · have h := walk_closed e m hm hx
        tauto
      · have h := walkList_closed gs m hm hx
        tauto
  | .dictComp k v gs => by
      intro m hm x hx
      rw [walk] at hm ⊢
      simp only [List.mem_cons, List.mem_append, or_assoc] at hm ⊢
      rcases hm with rfl | hm | hm | hm
      · rw [walk] at hx
        simp only [List.mem_cons, List.mem_append, or_assoc] at hx
        exact hx
      · have h := walk_closed k m hm hx
        tauto
      · have h := walk_closed v m hm hx
        tauto
      · have h := walkList_closed gs m hm hx
        tauto
  | .compClause t i fs => by
      intro m hm x hx
      rw [walk] at hm ⊢
      simp only [List.mem_cons, List.mem_append, or_assoc] at hm ⊢
      rcases hm with rfl | hm | hm | hm
      · rw [walk] at hx
        simp only [List.mem_cons, List.mem_append, or_assoc] at hx
        exact hx
      · have h := walk_closed t m hm hx
        tauto
      · have h := walk_closed i m hm hx
        tauto
      · have h := walkList_closed fs m hm hx
        tauto
  | .exprStmt v => by
      intro m hm x hx
      rw [walk] at hm ⊢
      simp only [List.mem_cons, List.mem_append, or_assoc] at hm ⊢
      rcases hm with rfl | hm
      · rw [walk] at hx
        simp only [List.mem_cons, List.mem_append, or_assoc] at hx
        exact hx
      · have h := walk_closed v m hm hx
        tauto
  | .ret v => by
      intro m hm x hx
      rw [walk] at hm ⊢
      simp only [List.mem_cons, List.mem_append, or_assoc] at hm ⊢
      rcases hm with rfl | hm
      · rw [walk] at hx
        simp only [List.mem_cons, List.mem_append, or_assoc] at hx
        exact hx
      · have h := walkOpt_closed v m hm hx
        tauto
  | .assign ts v => by
      intro m hm x hx
      rw [walk] at hm ⊢
      simp only [List.mem_cons, List.mem_append, or_assoc] at hm ⊢
      rcases hm with rfl | hm | hm
      · rw [walk] at hx
        simp only [List.mem_cons, List.mem_append, or_assoc] at hx
        exact hx
      · have h := walkList_closed ts m hm hx
        tauto
      · have h := walk_closed v m hm hx
        tauto
  | .augAssign t v => by
      intro m hm x hx
      rw [walk] at hm ⊢
      simp only [List.mem_cons, List.mem_append, or_assoc] at hm ⊢
      rcases hm with rfl | hm | hm
      · rw [walk] at hx
        simp only [List.mem_cons, List.mem_append, or_assoc] at hx
        exact hx
      · have h := walk_closed t m hm hx
        tauto
      · have h := walk_closed v m hm hx
        tauto
  | .annAssign t an v => by
      intro m hm x hx
      rw [walk] at hm ⊢
      simp only [List.mem_cons, List.mem_append, or_assoc] at hm ⊢
      rcases hm with rfl | hm | hm | hm
      · rw [walk] at hx
        simp only [List.mem_cons, List.mem_append, or_assoc] at hx
        exact hx
      · have h := walk_closed t m hm hx
        tauto
      · have h := walk_closed an m hm hx
        tauto
      · have h := walkOpt_closed v m hm hx
        tauto
  | .ifStmt t b o => by
      intro m hm x hx
      rw [walk] at hm ⊢
      simp only [List.mem_cons, List.mem_append, or_assoc] at hm ⊢
      rcases hm with rfl | hm | hm | hm
      · rw [walk] at hx
        simp only [List.mem_cons, List.mem_append, or_assoc] at hx
        exact hx
      · have h := walk_closed t m hm hx
        tauto
      · have h := walkList_closed b m hm hx
        tauto
      · have h := walkList_closed o m hm hx
        tauto
  | .forStmt t i b o => by
      intro m hm x hx
      rw [walk] at hm ⊢
      simp only [List.mem_cons, List.mem_append, or_assoc] at hm ⊢
      rcases hm with rfl | hm | hm | hm | hm
      · rw [walk] at hx
        simp only [List.mem_cons, List.mem_append, or_assoc] at hx
        exact hx
      · have h := walk_closed t m hm hx
        tauto
      · have h := walk_closed i m hm hx
        tauto
      · have h := walkList_closed b m hm hx
        tauto
      · have h := walkList_closed o m hm hx
        tauto
  | .asyncFor t i b o => by
      intro m hm x hx
      rw [walk] at hm ⊢
      simp only [List.mem_cons, List.mem_append, or_assoc] at hm ⊢
      rcases hm with rfl | hm | hm | hm | hm
      · rw [walk] at hx
        simp only [List.mem_cons, List.mem_append, or_assoc] at hx
        exact hx
      · have h := walk_closed t m hm hx
        tauto
      · have h := walk_closed i m hm hx
        tauto
      · have h := walkList_closed b m hm hx
        tauto
      · have h := walkList_closed o m hm hx
        tauto
  | .whileStmt t b o => by
      intro m hm x hx
      rw [walk] at hm ⊢
      simp only [List.mem_cons, List.mem_append, or_assoc] at hm ⊢
      rcases hm with rfl | hm | hm | hm
      · rw [walk] at hx
        simp only [List.mem_cons, List.mem_append, or_assoc] at hx
        exact hx
      · have h := walk_closed t m hm hx
        tauto
      · have h := walkList_closed b m hm hx
        tauto
      · have h := walkList_closed o m hm hx
        tauto
  | .functionDef n a b d r => by
      intro m hm x hx
      rw [walk] at hm ⊢
      simp only [List.mem_cons, List.mem_append, or_assoc] at hm ⊢
      rcases hm with rfl | hm | hm | hm | hm
      · rw [walk] at hx
        simp only [List.mem_cons, List.mem_append, or_assoc] at hx
        exact hx
      · have h := walk_closed a m hm hx
        tauto
      · have h := walkList_closed b m hm hx
        tauto
      · have h := walkList_closed d m hm hx
        tauto
      · have h := walkOpt_closed r m hm hx
        tauto
  | .asyncFunctionDef n a b d r => by
      intro m hm x hx
      rw [walk] at hm ⊢
      simp only [List.mem_cons, List.mem_append, or_assoc] at hm ⊢
      rcases hm with rfl | hm | hm | hm | hm
      · rw [walk] at hx
        simp only [List.mem_cons, List.mem_append, or_assoc] at hx
        exact hx
      · have h := walk_closed a m hm hx
        tauto
      · have h := walkList_closed b m hm hx
        tauto
      · have h := walkList_closed d m hm hx
        tauto
      · have h := walkOpt_closed r m hm hx
        tauto
  | .classDef n b => by
      intro m hm x hx
      rw [walk] at hm ⊢
      simp only [List.mem_cons, List.mem_append, or_assoc] at hm ⊢
      rcases hm with rfl | hm
      · rw [walk] at hx
        simp only [List.mem_cons, List.mem_append, or_assoc] at hx
        exact hx
      · have h := walkList_closed b m hm hx
        tauto
  | .arguments as ds => by
      intro m hm x hx
      rw [walk] at hm ⊢
      simp only [List.mem_cons, List.mem_append, or_assoc] at hm ⊢
      rcases hm with rfl | hm | hm
      · rw [walk] at hx
        simp only [List.mem_cons, List.mem_append, or_assoc] at hx
        exact hx
      · have h := walkList_closed as m hm hx
        tauto
      · have h := walkList_closed ds m hm hx
        tauto
  | .arg n an => by
      intro m hm x hx
      rw [walk] at hm ⊢
      simp only [List.mem_cons, List.mem_append, or_assoc] at hm ⊢
      rcases hm with rfl | hm
      · rw [walk] at hx
        simp only [List.mem_cons, List.mem_append, or_assoc] at hx
        exact hx
      · have h := walkOpt_closed an m hm hx
        tauto
  | .pass => by
      intro m hm
      rw [walk] at hm
      simp only [List.mem_singleton] at hm
      subst hm
      exact List.Subset.refl _
  | .module b => by
      intro m hm x hx
      rw [walk] at hm ⊢
      simp only [List.mem_cons, List.mem_append, or_assoc] at hm ⊢
      rcases hm with rfl | hm
      · rw [walk] at hx
        simp only [List.mem_cons, List.mem_append, or_assoc] at hx
        exact hx
      · have h := walkList_closed b m hm hx
        tauto

theorem walkList_closed : ∀ (l : List PN), ∀ m ∈ walkList l, walk m ⊆ walkList l
  | [] => by
      intro m hm
      rw [walkList] at hm
      simp at hm
  | x :: xs => by
      intro m hm y hy
      rw [walkList] at hm ⊢
      simp only [List.mem_append] at hm ⊢
      rcases hm with hm | hm
      · exact Or.inl (walk_closed x m hm hy)
      · exact Or.inr (walkList_closed xs m hm hy)

theorem walkOpt_closed : ∀ (o : Option PN), ∀ m ∈ walkOpt o, walk m ⊆ walkOpt o
  | none => by
      intro m hm
      simp [walkOpt] at hm
  | some x => walk_closed x

end


/-! ### The reporting layer (`__main__` block of `eat.py`)

Argument parsing and the external parser are out of scope: the model starts
after mode selection, taking the already-parsed tree of each target.  Console
and file output are modelled as an event trace; `exit(1)` is modelled by
cutting the trace short and raising the `aborted` flag.  The iteration order
of Python's `set` during `--show` printing is unspecified, so a `--show`
report is one event carrying the whole record list. -/

/-- The four output modes selected by `--stats`, `--show`, `--list-calls`
and `--list-attrs`. -/
inductive Mode where
  | stats
  | show
  | listCalls
  | listAttrs
deriving DecidableEq

/-- One observable output action of the `__main__` block. -/
inductive Event where
  | warnNoFunctions (target : String)
  | errorFileExists (out : String)
  | wroteFile (out : String) (rows : List (List String))
  | showFile (target : String) (stats : List Stats)
  | printName (s : String)
deriving DecidableEq

/-- The column list written as the CSV header. -/
def COLUMNS : List String :=
  ["name", "conditionals", "loops", "comprehensions", "assignments",
   "returns", "calls", "recursive_calls"]

/-- `[str(fs[c]) for c in COLUMNS]`: one CSV row of scalar fields. -/
def csvRow (fs : Stats) : List String :=
  [fs.name, toString fs.conditionals, toString fs.loops,
   toString fs.comprehensions, toString fs.assignments, toString fs.returns,
   toString fs.calls, toString fs.recursive_calls]

/-- The `for target in targets` loop.  `existing` is the set of files present
on disk (a written CSV is added to it), `combined` the accumulator of the two
listing modes.  Returns the emitted events, the final accumulator and whether
the run was aborted by `exit(1)`. -/
def runTargets (mode : Mode) :
    List String → Finset String → List (String × PN) →
      List Event × Finset String × Bool
  | _, combined, [] => ([], combined, false)
  | existing, combined, (target, tree) :: rest =>
      let stats := get_stats tree
      match mode with
      | .stats =>
          let out := target ++ ".csv"
          if stats.length = 0 then
            let res := runTargets .stats existing combined rest
            (.warnNoFunctions target :: res.1, res.2)
          else if out ∈ existing then
            ([.errorFileExists out], combined, true)
          else
            let res := runTargets .stats (out :: existing) combined rest
            (.wroteFile out (COLUMNS :: stats.map csvRow) :: res.1, res.2)
      | .show =>
          if stats.length = 0 then
            let res := runTargets .show existing combined rest
            (.warnNoFunctions target :: res.1, res.2)
          else
            let res := runTargets .show existing combined rest
            (.showFile target stats :: res.1, res.2)
      | .listCalls =>
          let combined := stats.foldl
            (fun acc fs =>
              acc ∪ fs.called_functions ∪
                fs.called_methods.image (fun mc => "." ++ mc))
            combined
          runTargets .listCalls existing combined rest
      | .listAttrs =>
          let combined := stats.foldl
            (fun acc fs => acc ∪ fs.resolved_attributes) combined
          runTargets .listAttrs existing combined rest

/-- The whole `__main__` run after mode selection: process every target, then
in the two listing modes print the combined name set sorted
lexicographically.  An aborted run stops at the abort point. -/
def runMain (mode : Mode) (existing : List String)
    (targets : List (String × PN)) : List Event :=
  let res := runTargets mode existing ∅ targets
  if res.2.2 then res.1
  else if mode = .listCalls ∨ mode = .listAttrs then
    res.1 ++ (res.2.1.sort (· ≤ ·)).map Event.printName
  else res.1

/-! ### Small helper lemmas -/

theorem stats_ext {r₁ r₂ : Stats} (h₀ : r₁.name = r₂.name)
    (h₁ : r₁.conditionals = r₂.conditionals) (h₂ : r₁.loops = r₂.loops)
    (h₃ : r₁.comprehensions = r₂.comprehensions)
    (h₄ : r₁.assignments = r₂.assignments) (h₅ : r₁.returns = r₂.returns)
    (h₆ : r₁.calls = r₂.calls) (h₇ : r₁.recursive_calls = r₂.recursive_calls)
    (h₈ : r₁.called_functions = r₂.called_functions)
    (h₉ : r₁.called_methods = r₂.called_methods)
    (h₁₀ : r₁.resolved_attributes = r₂.resolved_attributes) : r₁ = r₂ := by
  cases r₁
  cases r₂
  simp_all

theorem bareCallee_some {n : PN} {x : String} (h : bareCallee n = some x) :
    ∃ as, n = PN.call (PN.name x) as := by
  unfold bareCallee at h
  split at h
  · rename_i i as
    simp only [Option.some.injEq] at h
    exact ⟨as, by rw [h]⟩
  · simp at h

theorem attrCallee_some {n : PN} {x : String} (h : attrCallee n = some x) :
    ∃ recv as, n = PN.call (PN.attribute recv x) as := by
  unfold attrCallee at h
  split at h
  · rename_i recv a as
    simp only [Option.some.injEq] at h
    exact ⟨recv, as, by rw [h]⟩
  · simp at h

theorem attrNameOf_some {n : PN} {x : String} (h : attrNameOf n = some x) :
    ∃ recv, n = PN.attribute recv x := by
  unfold attrNameOf at h
  split at h
  · rename_i recv a
    simp only [Option.some.injEq] at h
    exact ⟨recv, by rw [h]⟩
  · simp at h

theorem isSelfCall_isCall {f : String} {n : PN}
    (h : isSelfCallNode f n = true) : isCallNode n = true := by
  unfold isSelfCallNode at h
  split at h
  · rename_i i as
    simp [isCallNode]
  · simp at h

theorem bareCallee_isSome_isCall {n : PN} (h : (bareCallee n).isSome) :
    isCallNode n = true := by
  unfold bareCallee at h
  split at h
  · rename_i i as
    simp [isCallNode]
  · simp at h

theorem countP_le_countP (p q : PN → Bool) (h : ∀ a, p a = true → q a = true) :
    ∀ l : List PN, l.countP p ≤ l.countP q := by
  intro l
  induction l with
  | nil => simp
  | cons c l ih =>
      rw [List.countP_cons, List.countP_cons]
      by_cases hc : p c = true
      · have hq := h c hc
        simp [hc, hq]
        omega
      · simp [hc]
        split <;> omega

theorem length_filterMap_le_countP (f : PN → Option String) (p : PN → Bool)
    (hfp : ∀ n, (f n).isSome → p n = true) :
    ∀ l : List PN, (l.filterMap f).length ≤ l.countP p := by
  intro l
  induction l with
  | nil => simp
  | cons c l ih =>
      rw [List.filterMap_cons, List.countP_cons]
      cases h : f c with
      | none => exact ih.trans (by split <;> omega)
      | some x =>
          have hp : p c = true := hfp c (by rw [h]; rfl)
          simp [hp]
          omega

theorem walkList_cons (x : PN) (xs : List PN) :
    walkList (x :: xs) = walk x ++ walkList xs := by
  rw [walkList]

theorem walkList_nil : walkList [] = [] := by
  rw [walkList]

theorem walkList_append (l₁ l₂ : List PN) :
    walkList (l₁ ++ l₂) = walkList l₁ ++ walkList l₂ := by
  induction l₁ with
  | nil => simp [walkList_nil]
  | cons x xs ih => simp [walkList_cons, ih]

theorem walkOpt_some (x : PN) : walkOpt (some x) = walk x := by
  rw [walkOpt]

theorem walkOpt_none : walkOpt none = [] := by
  rw [walkOpt]

theorem walk_functionDef (n : String) (a : PN) (b d : List PN)
    (r : Option PN) :
    walk (PN.functionDef n a b d r) =
      PN.functionDef n a b d r ::
        (walk a ++ walkList b ++ walkList d ++ walkOpt r) := by
  rw [walk]

theorem walk_exprStmt (v : PN) :
    walk (PN.exprStmt v) = PN.exprStmt v :: walk v := by
  rw [walk]

theorem walk_arguments (as ds : List PN) :
    walk (PN.arguments as ds) =
      PN.arguments as ds :: (walkList as ++ walkList ds) := by
  rw [walk]

theorem walk_arg (n : String) (an : Option PN) :
    walk (PN.arg n an) = PN.arg n an :: walkOpt an := by
  rw [walk]

/-! ### Example function nodes used by the spec's worked examples -/

/-- `def fact(n): return 1 if n == 0 else n * fact(n - 1)` -/
def factEx : PN :=
  .functionDef "fact" (.arguments [.arg "n" none] [])
    [.ret (some (.ifExp (.compare (.name "n") [.const]) .const
      (.binOp (.name "n") (.call (.name "fact") [.binOp (.name "n") .const]))))]
    [] none

/-- `def f(x): return x.bar()` -/
def barEx : PN :=
  .functionDef "f" (.arguments [.arg "x" none] [])
    [.ret (some (.call (.attribute (.name "x") "bar") []))] [] none

/-- `def outer(): def inner(): pass` — a nested definition. -/
def outerEx : PN :=
  .functionDef "outer" (.arguments [] [])
    [.functionDef "inner" (.arguments [] []) [.pass] [] none] [] none

/-- `def g(): pass` -/
def dupEx1 : PN :=
  .functionDef "g" (.arguments [] []) [.pass] [] none

/-- `async def g(): return` — same name as `dupEx1`, asynchronous. -/
def dupEx2 : PN :=
  .asyncFunctionDef "g" (.arguments [] []) [.ret none] [] none

/-- `def h(): ...` with an `if`/`elif`/`else` chain whose final branch holds
an inline conditional expression: three branching nodes in total. -/
def elifEx : PN :=
  .functionDef "h" (.arguments [] [])
    [.ifStmt (.name "a") [.pass]
      [.ifStmt (.name "b") [.pass]
        [.exprStmt (.ifExp (.name "c") (.name "d") (.name "e"))]]]
    [] none

/-! ### The claims -/

/-- C1: for every function node, `recursive_calls` equals the number of call
expressions in the subtree whose callee is a bare-name reference equal to the
enclosing function's declared name — so one increment per such call and never
for method-style or other callee shapes; and `def fact(n): return 1 if n == 0
else n * fact(n - 1)` yields conditionals 1, returns 1, calls 1,
recursive_calls 1 and called_functions exactly containing fact. -/
theorem recursive_calls_are_bare_name_self_calls :
    (∀ s : PN, isFuncDef s = true →
      (collect_stats s).recursive_calls =
        ((walk s).filter (isSelfCallNode s.nodeName)).length) ∧
    ((collect_stats factEx).conditionals = 1 ∧
      (collect_stats factEx).returns = 1 ∧
      (collect_stats factEx).calls = 1 ∧
      (collect_stats factEx).recursive_calls = 1 ∧
      (collect_stats factEx).called_functions = {"fact"}) := by
  constructor
  · intro s _
    rw [collect_stats_recursive, List.countP_eq_length_filter]
  · decide

theorem recursive_calls_are_bare_name_self_calls_witness :
    isFuncDef factEx = true ∧
    (collect_stats factEx).recursive_calls =
      ((walk factEx).filter (isSelfCallNode factEx.nodeName)).length :=
  ⟨by decide, recursive_calls_are_bare_name_self_calls.1 factEx (by decide)⟩

/-- C2: when a call's callee is an attribute access `receiver.attr(...)`,
both the call rule and the attribute-access rule fire: `attr` lands in
`called_methods` and in `resolved_attributes` and the call counts in `calls`,
while `called_functions` only ever receives names of bare-name calls (so an
attribute-callee call adds nothing to it); and `def f(x): return x.bar()`
yields exactly calls 1, called_methods containing bar, resolved_attributes
containing bar, and an empty called_functions. -/
theorem method_call_fires_both_rules :
    (∀ (s recv : PN) (a : String) (as : List PN), isFuncDef s = true →
      PN.call (PN.attribute recv a) as ∈ walk s →
        a ∈ (collect_stats s).called_methods ∧
        a ∈ (collect_stats s).resolved_attributes ∧
        1 ≤ (collect_stats s).calls) ∧
    (∀ (s : PN) (x : String), x ∈ (collect_stats s).called_functions →
      ∃ as, PN.call (PN.name x) as ∈ walk s) ∧
    collect_stats barEx = ⟨"f", 0, 0, 0, 0, 1, 1, 0, ∅, {"bar"}, {"bar"}⟩ := by
  refine ⟨?_, ?_, by decide⟩
  · intro s recv a as _ hmem
    refine ⟨?_, ?_, ?_⟩
    · rw [collect_stats_called_methods]
      simp only [List.mem_toFinset, List.mem_filterMap]
      exact ⟨_, hmem, rfl⟩
    · rw [collect_stats_resolved_attributes]
      simp only [List.mem_toFinset, List.mem_filterMap]
      refine ⟨PN.attribute recv a, ?_, rfl⟩
      apply walk_closed s _ hmem
      rw [walk]
      simp [walk]
    · rw [collect_stats_calls]
      have h : 0 < (walk s).countP isCallNode :=
        List.countP_pos_iff.mpr ⟨_, hmem, rfl⟩
      omega
  · intro s x hx
    rw [collect_stats_called_functions] at hx
    simp only [List.mem_toFinset, List.mem_filterMap] at hx
    obtain ⟨n, hn, hb⟩ := hx
    obtain ⟨as, rfl⟩ := bareCallee_some hb
    exact ⟨as, hn⟩

theorem method_call_fires_both_rules_witness :
    (isFuncDef barEx = true ∧
      PN.call (PN.attribute (PN.name "x") "bar") [] ∈ walk barEx ∧
      ("bar" ∈ (collect_stats barEx).called_methods ∧
       "bar" ∈ (collect_stats barEx).resolved_attributes ∧
       1 ≤ (collect_stats barEx).calls)) ∧
    ("fact" ∈ (collect_stats factEx).called_functions ∧
      ∃ as, PN.call (PN.name "fact") as ∈ walk factEx) :=
  ⟨⟨by decide, by simp [barEx, walk, walkList, walkOpt],
    method_call_fires_both_rules.1 barEx (PN.name "x") "bar" [] (by decide)
      (by simp [barEx, walk, walkList, walkOpt])⟩,
   by decide,
   method_call_fires_both_rules.2.1 factEx "fact" (by decide)⟩

/-- C3: an attribute name is in `resolved_attributes` iff at least one
attribute-access node with that name occurs anywhere in the function's
subtree, whether or not that access is the callee of a call. -/
theorem resolved_attributes_iff_attribute_node :
    ∀ s : PN, isFuncDef s = true → ∀ a : String,
      (a ∈ (collect_stats s).resolved_attributes ↔
        ∃ recv, PN.attribute recv a ∈ walk s) := by
  intro s _ a
  rw [collect_stats_resolved_attributes]
  simp only [List.mem_toFinset, List.mem_filterMap]
  constructor
  · rintro ⟨n, hn, hattr⟩
    obtain ⟨recv, rfl⟩ := attrNameOf_some hattr
    exact ⟨recv, hn⟩
  · rintro ⟨recv, hmem⟩
    exact ⟨PN.attribute recv a, hmem, rfl⟩

theorem resolved_attributes_iff_attribute_node_witness :
    isFuncDef barEx = true ∧
    ("bar" ∈ (collect_stats barEx).resolved_attributes ↔
      ∃ recv, PN.attribute recv "bar" ∈ walk barEx) :=
  ⟨by decide, resolved_attributes_iff_attribute_node barEx (by decide) "bar"⟩

/-- C4: every record the aggregator returns satisfies
`recursive_calls ≤ calls` and `|called_functions| ≤ calls` (the set
deduplicates, the scalar count does not). -/
theorem calls_dominate_recursive_and_called_functions :
    ∀ (n : PN) (r : Stats), r ∈ get_stats n →
      r.recursive_calls ≤ r.calls ∧ r.called_functions.card ≤ r.calls := by
  intro n r hr
  rw [get_stats] at hr
  rcases hbody : bodyAttr n with _ | body | e <;> rw [hbody] at hr
  · simp at hr
  case single => simp at hr
  case stmts =>
    simp only [List.mem_filterMap] at hr
    obtain ⟨c, _, hsome⟩ := hr
    by_cases hf : isFuncDef c = true
    · rw [if_pos hf, Option.some.injEq] at hsome
      subst hsome
      constructor
      · rw [collect_stats_recursive, collect_stats_calls]
        exact countP_le_countP _ _ (fun a h => isSelfCall_isCall h) _
      · rw [collect_stats_called_functions, collect_stats_calls]
        exact (List.toFinset_card_le _).trans
          (length_filterMap_le_countP bareCallee isCallNode
            (fun m h => bareCallee_isSome_isCall h) _)
    · rw [if_neg hf] at hsome
      simp at hsome

theorem calls_dominate_recursive_and_called_functions_witness :
    (collect_stats factEx) ∈ get_stats (PN.module [factEx]) ∧
    ((collect_stats factEx).recursive_calls ≤ (collect_stats factEx).calls ∧
     (collect_stats factEx).called_functions.card ≤
       (collect_stats factEx).calls) :=
  ⟨by simp [get_stats, bodyAttr, factEx, isFuncDef],
   calls_dominate_recursive_and_called_functions (PN.module [factEx]) _
     (by simp [get_stats, bodyAttr, factEx, isFuncDef])⟩

/-- C5: the enumerator returns exactly the (possibly asynchronous) function
definitions appearing directly among the module's top-level statements, in
declaration order, keeping duplicate names as separate entries; definitions
nested inside functions, classes or control blocks are not enumerated. -/
theorem enumerator_returns_top_level_functions_in_order :
    (∀ body : List PN, get_stats (PN.module body) =
      (body.filter (fun c => isFuncDef c)).map collect_stats) ∧
    (get_stats (PN.module [outerEx])).map Stats.name = ["outer"] ∧
    (get_stats (PN.module
      [.pass, dupEx1, .classDef "C" [dupEx1],
       .ifStmt (.name "c") [dupEx1] [], dupEx2])).map Stats.name =
      ["g", "g"] := by
  refine ⟨?_, by decide, by decide⟩
  have key : ∀ body : List PN,
      (body.filterMap fun c =>
        if isFuncDef c then some (collect_stats c) else none) =
      (body.filter (fun c => isFuncDef c)).map collect_stats := by
    intro body
    induction body with
    | nil => simp
    | cons c cs ih =>
        rw [List.filterMap_cons, List.filter_cons]
        by_cases h : isFuncDef c = true
        · simp [h, ih]
        · simp [h, ih]
  intro body
  exact key body

/-- C6: `conditionals` counts every branching node in the subtree one by one:
in a chain each `elif` is a nested `if` node counted separately (not folded
into the first branch), and each inline conditional expression counts as one;
an `if`/`elif` chain ending in an inline conditional yields 3. -/
theorem elif_and_ifexp_counted_separately :
    (∀ s : PN, isFuncDef s = true →
      (collect_stats s).conditionals =
        ((walk s).filter isConditionalNode).length) ∧
    (collect_stats elifEx).conditionals = 3 := by
  constructor
  · intro s _
    rw [collect_stats_conditionals, List.countP_eq_length_filter]
  · decide

theorem elif_and_ifexp_counted_separately_witness :
    isFuncDef elifEx = true ∧
    (collect_stats elifEx).conditionals =
      ((walk elifEx).filter isConditionalNode).length :=
  ⟨by decide, elif_and_ifexp_counted_separately.1 elifEx (by decide)⟩

/-- C7 counterexample: an inline conditional expression node does not expose
a body that is a sequence of statements — its `body` attribute is the single
expression between `if` and `else` — yet handing it to the enumerator does
not yield an empty sequence silently: the `hasattr(node, "body")` guard
passes and the real code raises a `TypeError` iterating that body
(`get_stats_raises`). -/
theorem ifexp_body_raises_instead_of_empty :
    bodyAttr (PN.ifExp (PN.name "a") (PN.name "b") (PN.name "c")) =
      BodyAttr.single (PN.name "b") ∧
    get_stats_raises (PN.ifExp (PN.name "a") (PN.name "b") (PN.name "c")) =
      true :=
  ⟨rfl, rfl⟩

/-- C7 amended: when the enumerator is handed a node with no `body` attribute
at all, it returns the empty sequence and raises nothing; the no-raise
guarantee covers exactly that case, because the only other non-sequence shape
— a `body` attribute holding a single expression — occurs precisely at inline
conditional expressions, where the code raises a `TypeError`. -/
theorem absent_body_yields_empty_sequence :
    (∀ n : PN, bodyAttr n = BodyAttr.absent →
      get_stats n = [] ∧ get_stats_raises n = false) ∧
    (∀ n : PN, get_stats_raises n = true ↔ ∃ t b o, n = PN.ifExp t b o) := by
  constructor
  · intro n h
    constructor
    · rw [get_stats, h]
    · rw [get_stats_raises, h]
  · intro n
    cases n <;> simp [get_stats_raises, bodyAttr]

theorem absent_body_yields_empty_sequence_witness :
    bodyAttr (PN.name "x") = BodyAttr.absent ∧
    (get_stats (PN.name "x") = [] ∧ get_stats_raises (PN.name "x") = false) :=
  ⟨rfl, absent_body_yields_empty_sequence.1 (PN.name "x") rfl⟩

/-- C8 counterexample: in the `--list-calls` reporting mode, analyzing a
module with zero top-level function definitions emits no warning at all (the
run's whole event trace is empty), contradicting the claim that every such
module triggers a warning in reporting. -/
theorem empty_module_no_warning_in_list_mode :
    get_stats (PN.module []) = [] ∧
    runMain .listCalls [] [("empty", PN.module [])] = [] := by
  constructor
  · rfl
  · simp [runMain, runTargets, get_stats, bodyAttr, Finset.sort_empty]

/-- C8 amended: in the tabular-export (`--stats`) and human-readable
(`--show`) reporting modes, a module with zero top-level function definitions
triggers a non-fatal warning, not an error, and processing continues
unchanged with the remaining modules (the two aggregate listing modes emit no
per-module warning). -/
theorem empty_module_warns_and_continues :
    ∀ (existing : List String) (combined : Finset String) (target : String)
      (tree : PN) (rest : List (String × PN)),
      get_stats tree = [] →
      (runTargets .stats existing combined ((target, tree) :: rest) =
        (Event.warnNoFunctions target ::
          (runTargets .stats existing combined rest).1,
         (runTargets .stats existing combined rest).2) ∧
       runTargets .show existing combined ((target, tree) :: rest) =
        (Event.warnNoFunctions target ::
          (runTargets .show existing combined rest).1,
         (runTargets .show existing combined rest).2)) := by
  intro existing combined target tree rest h
  constructor <;> rw [runTargets] <;> simp [h]

theorem empty_module_warns_and_continues_witness :
    get_stats (PN.module []) = [] ∧
    (runTargets .stats [] ∅
        [("empty", PN.module []), ("m", PN.module [factEx])] =
      (Event.warnNoFunctions "empty" ::
        (runTargets .stats [] ∅ [("m", PN.module [factEx])]).1,
       (runTargets .stats [] ∅ [("m", PN.module [factEx])]).2) ∧
     runTargets .show [] ∅
        [("empty", PN.module []), ("m", PN.module [factEx])] =
      (Event.warnNoFunctions "empty" ::
        (runTargets .show [] ∅ [("m", PN.module [factEx])]).1,
       (runTargets .show [] ∅ [("m", PN.module [factEx])]).2)) :=
  ⟨rfl, empty_module_warns_and_continues [] ∅ "empty" (PN.module [])
    [("m", PN.module [factEx])] rfl⟩

/-- C9: when a tabular export is about to happen (the module has functions)
and the destination file already exists, the run emits exactly the
user-facing error event and stops: no file-write event for this or any later
target, the abort flag is raised, and remaining targets are not processed. -/
theorem csv_export_refuses_overwrite :
    ∀ (existing : List String) (combined : Finset String) (target : String)
      (tree : PN) (rest : List (String × PN)),
      get_stats tree ≠ [] →
      (target ++ ".csv") ∈ existing →
      runTargets .stats existing combined ((target, tree) :: rest) =
        ([Event.errorFileExists (target ++ ".csv")], combined, true) := by
  intro existing combined target tree rest hne hex
  rw [runTargets]
  simp [List.length_eq_zero, hne, hex]

theorem csv_export_refuses_overwrite_witness :
    get_stats (PN.module [factEx]) ≠ [] ∧
    ("m" ++ ".csv") ∈ ["m.csv"] ∧
    runTargets .stats ["m.csv"] ∅ [("m", PN.module [factEx])] =
      ([Event.errorFileExists ("m" ++ ".csv")], ∅, true) :=
  ⟨by decide, by decide,
   csv_export_refuses_overwrite ["m.csv"] ∅ "m" (PN.module [factEx]) []
     (by decide) (by decide)⟩
/-! The four node kinds that host the swap in the claim about decorators,
defaults and annotations are classified by no rule and harvested by no
extractor: each predicate and extractor is constant on them. -/

theorem isCallNode_functionDef (n : String) (a : PN) (b d : List PN) (r : Option PN) :
    isCallNode (PN.functionDef n a b d r) = false := rfl

theorem isReturnNode_functionDef (n : String) (a : PN) (b d : List PN) (r : Option PN) :
    isReturnNode (PN.functionDef n a b d r) = false := rfl

theorem isAssignNode_functionDef (n : String) (a : PN) (b d : List PN) (r : Option PN) :
    isAssignNode (PN.functionDef n a b d r) = false := rfl

theorem isComprehensionNode_functionDef (n : String) (a : PN) (b d : List PN) (r : Option PN) :
    isComprehensionNode (PN.functionDef n a b d r) = false := rfl

theorem isLoopNode_functionDef (n : String) (a : PN) (b d : List PN) (r : Option PN) :
    isLoopNode (PN.functionDef n a b d r) = false := rfl

theorem isConditionalNode_functionDef (n : String) (a : PN) (b d : List PN) (r : Option PN) :
    isConditionalNode (PN.functionDef n a b d r) = false := rfl

theorem isSelfCallNode_functionDef (f : String) (n : String) (a : PN) (b d : List PN) (r : Option PN) :
    isSelfCallNode f (PN.functionDef n a b d r) = false := rfl

theorem bareCallee_functionDef (n : String) (a : PN) (b d : List PN) (r : Option PN) :
    bareCallee (PN.functionDef n a b d r) = none := rfl

theorem attrCallee_functionDef (n : String) (a : PN) (b d : List PN) (r : Option PN) :
    attrCallee (PN.functionDef n a b d r) = none := rfl

theorem attrNameOf_functionDef (n : String) (a : PN) (b d : List PN) (r : Option PN) :
    attrNameOf (PN.functionDef n a b d r) = none := rfl

theorem isCallNode_exprStmt (v : PN) :
    isCallNode (PN.exprStmt v) = false := rfl

theorem isReturnNode_exprStmt (v : PN) :
    isReturnNode (PN.exprStmt v) = false := rfl

theorem isAssignNode_exprStmt (v : PN) :
    isAssignNode (PN.exprStmt v) = false := rfl

theorem isComprehensionNode_exprStmt (v : PN) :
    isComprehensionNode (PN.exprStmt v) = false := rfl

theorem isLoopNode_exprStmt (v : PN) :
    isLoopNode (PN.exprStmt v) = false := rfl

theorem isConditionalNode_exprStmt (v : PN) :
    isConditionalNode (PN.exprStmt v) = false := rfl

theorem isSelfCallNode_exprStmt (f : String) (v : PN) :
    isSelfCallNode f (PN.exprStmt v) = false := rfl

theorem bareCallee_exprStmt (v : PN) :
    bareCallee (PN.exprStmt v) = none := rfl

theorem attrCallee_exprStmt (v : PN) :
    attrCallee (PN.exprStmt v) = none := rfl

theorem attrNameOf_exprStmt (v : PN) :
    attrNameOf (PN.exprStmt v) = none := rfl

theorem isCallNode_arguments (as ds : List PN) :
    isCallNode (PN.arguments as ds) = false := rfl

theorem isReturnNode_arguments (as ds : List PN) :
    isReturnNode (PN.arguments as ds) = false := rfl

theorem isAssignNode_arguments (as ds : List PN) :
    isAssignNode (PN.arguments as ds) = false := rfl

theorem isComprehensionNode_arguments (as ds : List PN) :
    isComprehensionNode (PN.arguments as ds) = false := rfl

theorem isLoopNode_arguments (as ds : List PN) :
    isLoopNode (PN.arguments as ds) = false := rfl

theorem isConditionalNode_arguments (as ds : List PN) :
    isConditionalNode (PN.arguments as ds) = false := rfl

theorem isSelfCallNode_arguments (f : String) (as ds : List PN) :
    isSelfCallNode f (PN.arguments as ds) = false := rfl

theorem bareCallee_arguments (as ds : List PN) :
    bareCallee (PN.arguments as ds) = none := rfl

theorem attrCallee_arguments (as ds : List PN) :
    attrCallee (PN.arguments as ds) = none := rfl

theorem attrNameOf_arguments (as ds : List PN) :
    attrNameOf (PN.arguments as ds) = none := rfl

theorem isCallNode_arg (n : String) (an : Option PN) :
    isCallNode (PN.arg n an) = false := rfl

theorem isReturnNode_arg (n : String) (an : Option PN) :
    isReturnNode (PN.arg n an) = false := rfl

theorem isAssignNode_arg (n : String) (an : Option PN) :
    isAssignNode (PN.arg n an) = false := rfl

theorem isComprehensionNode_arg (n : String) (an : Option PN) :
    isComprehensionNode (PN.arg n an) = false := rfl

theorem isLoopNode_arg (n : String) (an : Option PN) :
    isLoopNode (PN.arg n an) = false := rfl

theorem isConditionalNode_arg (n : String) (an : Option PN) :
    isConditionalNode (PN.arg n an) = false := rfl

theorem isSelfCallNode_arg (f : String) (n : String) (an : Option PN) :
    isSelfCallNode f (PN.arg n an) = false := rfl

theorem bareCallee_arg (n : String) (an : Option PN) :
    bareCallee (PN.arg n an) = none := rfl

theorem attrCallee_arg (n : String) (an : Option PN) :
    attrCallee (PN.arg n an) = none := rfl

theorem attrNameOf_arg (n : String) (an : Option PN) :
    attrNameOf (PN.arg n an) = none := rfl


/-- C10: the traversal covers the whole function-definition subtree, not just
the body: a classified node placed in a decorator expression, a
default-argument value, the return annotation or a parameter annotation
contributes to the statistics exactly as the same node placed in the body (as
an expression statement) — the records are equal. -/
theorem decorators_defaults_annotations_count_as_body :
    ∀ (n : String) (a : PN) (b d : List PN) (r : Option PN) (e : PN)
      (ts ds : List PN) (x : String),
      collect_stats (PN.functionDef n a b (e :: d) r) =
        collect_stats (PN.functionDef n a (PN.exprStmt e :: b) d r) ∧
      collect_stats (PN.functionDef n (PN.arguments ts (e :: ds)) b d r) =
        collect_stats
          (PN.functionDef n (PN.arguments ts ds) (PN.exprStmt e :: b) d r) ∧
      collect_stats (PN.functionDef n a b d (some e)) =
        collect_stats (PN.functionDef n a (PN.exprStmt e :: b) d none) ∧
      collect_stats
          (PN.functionDef n (PN.arguments (PN.arg x (some e) :: ts) ds) b d r) =
        collect_stats
          (PN.functionDef n (PN.arguments (PN.arg x none :: ts) ds)
            (PN.exprStmt e :: b) d r) := by
  intro n a b d r e ts ds x
  refine ⟨?_, ?_, ?_, ?_⟩ <;>
  refine stats_ext ?_ ?_ ?_ ?_ ?_ ?_ ?_ ?_ ?_ ?_ ?_ <;>
  first
  | (simp only [collect_stats_name, PN.nodeName])
  | (simp only [collect_stats_calls, collect_stats_recursive,
      collect_stats_returns, collect_stats_assignments,
      collect_stats_comprehensions, collect_stats_loops,
      collect_stats_conditionals, PN.nodeName,
      walk_functionDef, walk_exprStmt, walk_arguments, walk_arg,
      walkList_cons, walkOpt_some, walkOpt_none, walkList_nil,
      List.countP_append, List.countP_cons,
      isCallNode_functionDef, isCallNode_exprStmt, isCallNode_arguments,
      isCallNode_arg, isSelfCallNode_functionDef, isSelfCallNode_exprStmt,
      isSelfCallNode_arguments, isSelfCallNode_arg, isReturnNode_functionDef,
      isReturnNode_exprStmt, isReturnNode_arguments, isReturnNode_arg,
      isAssignNode_functionDef, isAssignNode_exprStmt, isAssignNode_arguments,
      isAssignNode_arg, isComprehensionNode_functionDef,
      isComprehensionNode_exprStmt, isComprehensionNode_arguments,
      isComprehensionNode_arg, isLoopNode_functionDef, isLoopNode_exprStmt,
      isLoopNode_arguments, isLoopNode_arg, isConditionalNode_functionDef,
      isConditionalNode_exprStmt, isConditionalNode_arguments,
      isConditionalNode_arg, Bool.false_eq_true, if_false,
      List.countP_nil, List.append_nil, List.nil_append]
     omega)
  | (simp only [collect_stats_called_functions, collect_stats_called_methods,
      collect_stats_resolved_attributes,
      walk_functionDef, walk_exprStmt, walk_arguments, walk_arg,
      walkList_cons, walkOpt_some, walkOpt_none, walkList_nil,
      List.filterMap_append, List.filterMap_cons,
      bareCallee_functionDef, bareCallee_exprStmt, bareCallee_arguments,
      bareCallee_arg, attrCallee_functionDef, attrCallee_exprStmt,
      attrCallee_arguments, attrCallee_arg, attrNameOf_functionDef,
      attrNameOf_exprStmt, attrNameOf_arguments, attrNameOf_arg,
      List.toFinset_append, List.filterMap_nil, List.toFinset_nil,
      Finset.union_empty, Finset.empty_union,
      List.append_nil, List.nil_append]
     ext y
     simp only [Finset.mem_union]
     tauto)
